import Mathlib

/-! Verification of the indicator / signal / trade-simulation core of the
stocklab repository (src/src/App.tsx), shallowly embedded in Lean 4.

Modelling conventions:
* JavaScript numbers are modelled by `ℚ` wherever the source computes with
  rational operations only; the metric layer (`sharpe`, `cagr`), which uses
  `Math.sqrt` / `Math.pow`, is modelled over `ℝ`.
* The source uses `NaN` exclusively as an "unset" marker (`entryPrice`,
  `stopLevel`) guarded by `Number.isFinite`; this is modelled by `Option ℚ`.
* Indicator series elements `number | null` become `Option ℚ`.
* Calendar-date identifiers (ISO strings in the source) are opaque to the
  core; they are modelled by `ℕ`.
* JavaScript out-of-range array reads yield `undefined`, which behaves like
  `null` at every read site of the engine; list reads are modelled with
  `List.get?` plus `Option.join` / `Option.getD`.
-/

/-- One price bar `OHLCV = {t, open, high, low, close, volume}` of the source
(`openP` stands for the source field `open`, a Lean keyword). -/
structure OHLCV where
  t : ℕ
  openP : ℚ
  high : ℚ
  low : ℚ
  close : ℚ
  volume : ℚ
deriving DecidableEq

/-- JavaScript `Math.max` on two numbers (written with an explicit `if` so
that concrete runs evaluate; equal to `max`, see `jsMax_eq`). -/
def jsMax (a b : ℚ) : ℚ := if a ≤ b then b else a

/-- JavaScript `Math.min` on two numbers (equal to `min`, see `jsMin_eq`). -/
def jsMin (a b : ℚ) : ℚ := if a ≤ b then a else b

/-- Source `clamp(x, a, b) = Math.max(a, Math.min(b, x))`. -/
def clamp (x a b : ℚ) : ℚ := jsMax a (jsMin b x)

/-- Source `mean(xs)`: `NaN` (here `none`) on an empty list, else the
arithmetic mean.  The source first filters to finite values; in the rational
model every value is finite, so the filter is the identity. -/
def meanQ (xs : List ℚ) : Option ℚ :=
  if xs.length = 0 then none else some (xs.sum / xs.length)

/-- Sample variance as computed inside source `std(xs)` (the quantity under
the square root): `NaN` (here `none`) with fewer than 2 observations, else
`Σ (b − m)² / (length − 1)`. -/
def varQ (xs : List ℚ) : Option ℚ :=
  if xs.length < 2 then none
  else
    some (((xs.map (fun b => (b - xs.sum / xs.length) * (b - xs.sum / xs.length))).sum)
      / ((xs.length : ℚ) - 1))

/-- Emission formula of source `rsi`: `rs = losses === 0 ? Infinity : gains/losses;
out = 100 - 100/(1+rs)`.  When `rs` is `Infinity` the source's `100/(1+rs)`
is `0`, so the output is exactly `100`. -/
def rsiOut (gains losses : ℚ) : ℚ :=
  if losses = 0 then 100 else 100 - 100 / (1 + gains / losses)

/-- Loop of source `rsi` from index `i ≥ 1` on, carrying the previous close
and the accumulated/smoothed `gains` / `losses`. -/
def rsiGo (period : ℕ) (prev : ℚ) (rest : List ℚ) (i : ℕ) (gains losses : ℚ) :
    List (Option ℚ) :=
  match rest with
  | [] => []
  | c :: rest' =>
    let chg := c - prev
    let g := jsMax 0 chg
    let l := jsMax 0 (-chg)
    if i ≤ period then
      let gains' := gains + g
      let losses' := losses + l
      (if i = period then some (rsiOut gains' losses') else none)
        :: rsiGo period c rest' (i + 1) gains' losses'
    else
      let gains' := (gains * ((period : ℚ) - 1) + g) / period
      let losses' := (losses * ((period : ℚ) - 1) + l) / period
      some (rsiOut gains' losses') :: rsiGo period c rest' (i + 1) gains' losses'

/-- Source `rsi(closes, period)`: index 0 is always `null`; the loop starts
at index 1 with zero accumulators. -/
def rsi (closes : List ℚ) (period : ℕ) : List (Option ℚ) :=
  match closes with
  | [] => []
  | c :: rest => none :: rsiGo period c rest 1 0 0

/-- Loop body of source `buildBacktestSignalMeanRev`: the 2-state machine on
the position `pos ∈ {0, 1}` driven by one oscillator reading. -/
def mrStep (entry exitThr pos : ℚ) : Option ℚ → ℚ
  | none => pos
  | some rv =>
    if pos = 0 ∧ rv < entry then 1
    else if pos = 1 ∧ rv > exitThr then 0
    else pos

/-- Loop of source `buildBacktestSignalMeanRev`: emits the post-transition
state at every index. -/
def mrGo (entry exitThr pos : ℚ) : List (Option ℚ) → List ℚ
  | [] => []
  | r :: rest =>
    mrStep entry exitThr pos r :: mrGo entry exitThr (mrStep entry exitThr pos r) rest

/-- Source `buildBacktestSignalMeanRev(rows, rsiPeriod, entry, exit).signal`
(the source's `exit` parameter is named `exitThr` here). -/
def buildBacktestSignalMeanRev (rows : List OHLCV) (rsiPeriod : ℕ)
    (entry exitThr : ℚ) : List ℚ :=
  mrGo entry exitThr 0 (rsi (rows.map OHLCV.close) rsiPeriod)

/-- Argument record of source `backtestFromSignal` (`volumeRatioSeq` is the
source field `volumeRatio`; `eventCountByDate` is the plain-object lookup,
`none` for an absent key). -/
structure BTArgs where
  rows : List OHLCV
  signal : List ℚ
  atr : List (Option ℚ)
  volumeRatioSeq : List (Option ℚ)
  eventCountByDate : ℕ → Option ℚ
  feeBps : ℚ
  slipBps : ℚ
  atrStopK : ℚ
  volumeGateOn : Bool
  volumeGateThr : ℚ
  eventScaleOn : Bool
  eventCountThr : ℚ
  eventScale : ℚ

/-- Mutable loop state of source `backtestFromSignal`, threaded explicitly:
`equity`, `pos`, `entryPrice`/`stopLevel` (NaN-as-unset modelled by
`Option`), the three counters, and the emitted `curve` / `daily` arrays. -/
structure BTState where
  equity : ℚ
  pos : ℕ
  entryPrice : Option ℚ
  stopLevel : Option ℚ
  trades : ℕ
  wins : ℕ
  losses : ℕ
  curve : List (ℕ × ℚ)
  daily : List ℚ
deriving DecidableEq

/-- Source `cost = clamp((feeBps + slipBps) / 10000, 0, 0.1)`. -/
def costRate (a : BTArgs) : ℚ := clamp ((a.feeBps + a.slipBps) / 10000) 0 (1 / 10)

/-- Source inner function `exposureForDay(dayIso)`: `1` unless event scaling
is on and the day's event count (`|| 0` for an absent key) reaches the
threshold, in which case `clamp(eventScale, 0, 1)`. -/
def exposureForDay (a : BTArgs) (dayT : ℕ) : ℚ :=
  if a.eventScaleOn = false then 1
  else
    if a.eventCountThr ≤ (a.eventCountByDate dayT).getD 0 then clamp a.eventScale 0 1
    else 1

/-- Source `desired = args.signal[i - 1] ? 1 : 0` (an out-of-range read is
`undefined`, hence falsy, hence `0`). -/
def desiredOf (a : BTArgs) (i : ℕ) : ℕ :=
  if (a.signal.get? (i - 1)).getD 0 ≠ 0 then 1 else 0

/-- Source volume-gate computation of `allowEntry`: consulted only when the
gate is on, the state is flat and the desired exposure is `1`; entry is
allowed iff `volumeRatio[i-1]` is defined and at least the threshold. -/
def allowEntryOf (a : BTArgs) (i : ℕ) (s : BTState) : Bool :=
  if a.volumeGateOn = true ∧ s.pos = 0 ∧ desiredOf a i = 1 then
    match (a.volumeRatioSeq.get? (i - 1)).join with
    | none => false
    | some vr => decide (a.volumeGateThr ≤ vr)
  else true

/-- Source stop-level initialisation at entry: `entryPrice − atrStopK·atr[i-1]`
when `atr[i-1]` is defined (and finite) and positive, else unset. -/
def stopLevelOf (a : BTArgs) (i : ℕ) (pc : ℚ) : Option ℚ :=
  match (a.atr.get? (i - 1)).join with
  | some x => if 0 < x then some (pc - a.atrStopK * x) else none
  | none => none

/-- Win/loss increments of the signal-driven exit: the source classifies only
when `entryPrice` is finite and `prevClose > 0`, via `pnl = prevClose/entryPrice − 1`.
When `entryPrice = 0` the source's division yields `Infinity`, so `pnl ≥ 0`
holds and the exit counts as a win. -/
def exitWinLoss (ep : Option ℚ) (pc : ℚ) : ℕ × ℕ :=
  match ep with
  | none => (0, 0)
  | some e =>
    if 0 < pc then
      if e = 0 then (1, 0)
      else if 0 ≤ pc / e - 1 then (1, 0) else (0, 1)
    else (0, 0)

/-- Win/loss increments of the stop-driven exit: the source classifies only
when `entryPrice` is finite and positive, via `pnl = stopLevel/entryPrice − 1`. -/
def stopWinLoss (ep : Option ℚ) (sl : ℚ) : ℕ × ℕ :=
  match ep with
  | none => (0, 0)
  | some e =>
    if 0 < e then
      if 0 ≤ sl / e - 1 then (1, 0) else (0, 1)
    else (0, 0)

/-- State-transition phase of one loop iteration of source
`backtestFromSignal` (the `if (desired !== pos)` block), at fill price
`pc = close[i-1]`. -/
def btTrans (a : BTArgs) (pc : ℚ) (i : ℕ) (s : BTState) : BTState :=
  if desiredOf a i = s.pos then s
  else if desiredOf a i = 1 ∧ allowEntryOf a i s = false then s
  else if desiredOf a i = 1 then
    { s with
      equity := s.equity * (1 - costRate a)
      trades := s.trades + 1
      pos := 1
      entryPrice := some pc
      stopLevel := stopLevelOf a i pc }
  else
    { s with
      equity := s.equity * (1 - costRate a)
      trades := s.trades + 1
      pos := 0
      wins := s.wins + (exitWinLoss s.entryPrice pc).1
      losses := s.losses + (exitWinLoss s.entryPrice pc).2
      entryPrice := none
      stopLevel := none }

/-- Ordinary (non-stop) return realization of one bar: the source's
`rr = prevClose > 0 ? today.close/prevClose − 1 : 0; r = expo·rr;
equity *= 1 + r` followed by the curve/daily pushes. -/
def btOrdinary (pc : ℚ) (td : OHLCV) (expo : ℚ) (s : BTState) : BTState :=
  { s with
    equity := s.equity * (1 + expo * (if 0 < pc then td.close / pc - 1 else 0))
    curve := s.curve ++ [(td.t, s.equity * (1 + expo * (if 0 < pc then td.close / pc - 1 else 0)))]
    daily := s.daily ++ [expo * (if 0 < pc then td.close / pc - 1 else 0)] }

/-- Return-realization phase of one loop iteration of source
`backtestFromSignal`: exposure lookup, the stop-loss check (only when long
with positive exposure), and the curve/daily pushes. -/
def btRealize (a : BTArgs) (pc : ℚ) (td : OHLCV) (s : BTState) : BTState :=
  let expo : ℚ := if s.pos = 1 then exposureForDay a td.t else 0
  if s.pos = 1 ∧ 0 < expo then
    match s.stopLevel with
    | some sl =>
      if td.low ≤ sl ∧ 0 < pc then
        { equity := s.equity * (1 + expo * (sl / pc - 1)) * (1 - costRate a)
          pos := 0
          entryPrice := none
          stopLevel := none
          trades := s.trades + 1
          wins := s.wins + (stopWinLoss s.entryPrice sl).1
          losses := s.losses + (stopWinLoss s.entryPrice sl).2
          curve := s.curve ++ [(td.t, s.equity * (1 + expo * (sl / pc - 1)) * (1 - costRate a))]
          daily := s.daily ++ [expo * (sl / pc - 1)] }
      else btOrdinary pc td expo s
    | none => btOrdinary pc td expo s
  else
    { s with
      curve := s.curve ++ [(td.t, s.equity)]
      daily := s.daily ++ [0] }

/-- One full iteration `i` of the source loop: transition at `close[i-1]`,
then realization over `close[i-1] → close[i]`. -/
def btStep (a : BTArgs) (prev td : OHLCV) (i : ℕ) (s : BTState) : BTState :=
  btRealize a prev.close td (btTrans a prev.close i s)

/-- The source loop `for (i = 1; i < n; i++)`, carrying the previous bar. -/
def btGo (a : BTArgs) : OHLCV → List OHLCV → ℕ → BTState → BTState
  | _, [], _, s => s
  | prev, td :: rest, i, s => btGo a td rest (i + 1) (btStep a prev td i s)

/-- Initial loop state of source `backtestFromSignal`. -/
def initState : BTState :=
  { equity := 1, pos := 0, entryPrice := none, stopLevel := none,
    trades := 0, wins := 0, losses := 0, curve := [], daily := [] }

/-- Loop of source `computeMaxDrawdownFromCurve`: `peak` starts at `-Infinity`
(modelled by `none`, which every equity exceeds), `mdd` at `0`. -/
def mddGo : List (ℕ × ℚ) → Option ℚ → ℚ → ℚ
  | [], _, mdd => mdd
  | p :: rest, peak, mdd =>
    let e := p.2
    let peak' : ℚ := match peak with
      | none => e
      | some pk => if e > pk then e else pk
    let dd := if 0 < peak' then (e - peak') / peak' else 0
    mddGo rest (some peak') (if dd < mdd then dd else mdd)

/-- Source `computeMaxDrawdownFromCurve(curve)`. -/
def computeMaxDrawdownFromCurve (curve : List (ℕ × ℚ)) : ℚ :=
  mddGo curve none 0

/-- Rational-valued fields of the source result's `stats` record; the
real-valued `cagr` and `sharpe` fields are modelled separately by `cagrOf`
and `reportedSharpe` below. -/
structure BTStats where
  totalReturn : ℚ
  maxDrawdown : ℚ
  costBps : ℚ
deriving DecidableEq

/-- Source `BacktestResult` (minus the two real-valued stats, see `BTStats`). -/
structure BacktestResult where
  curve : List (ℕ × ℚ)
  daily : List ℚ
  trades : ℕ
  wins : ℕ
  losses : ℕ
  stats : BTStats
deriving DecidableEq

/-- Source `backtestFromSignal(args)`: `null` (here `none`) on fewer than 2
bars, else the single deterministic pass over the bar list. -/
def backtestFromSignal (a : BTArgs) : Option BacktestResult :=
  match a.rows with
  | b0 :: b1 :: rest =>
    let fin := btGo a b0 (b1 :: rest) 1 initState
    some
      { curve := fin.curve
        daily := fin.daily
        trades := fin.trades
        wins := fin.wins
        losses := fin.losses
        stats :=
          { totalReturn := fin.equity - 1
            maxDrawdown := computeMaxDrawdownFromCurve fin.curve
            costBps := a.feeBps + a.slipBps } }
  | _ => none

/-- Source `std(xs)`: the square root of the sample variance, `NaN` (here
`none`) with fewer than 2 observations. -/
noncomputable def stdOf (xs : List ℚ) : Option ℝ :=
  (varQ xs).map (fun (v : ℚ) => Real.sqrt (v : ℝ))

/-- Source `sharpe = (mean(daily) / (std(daily) || NaN)) * Math.sqrt(252)`:
`NaN` (here `none`) when the mean is undefined, the standard deviation is
undefined (fewer than 2 observations), or the standard deviation is `0`
(the `|| NaN` coalescing); otherwise the annualized ratio. -/
noncomputable def sharpeOf (xs : List ℚ) : Option ℝ :=
  match meanQ xs, stdOf xs with
  | some m, some s => if s = 0 then none else some ((m : ℝ) / s * Real.sqrt 252)
  | _, _ => none

/-- The sharpe value the source stores in `res.stats.sharpe`, as a function
of the produced result. -/
noncomputable def reportedSharpe (r : BacktestResult) : Option ℝ :=
  sharpeOf r.daily

/-- Source `nn = daily.length || 1; cagr = Math.pow(1 + totalReturn, 252/nn) − 1`.
`Math.pow` of a negative base with a non-integer exponent is `NaN` (here
`none`); `252/nn` is an integer exactly when `nn ∣ 252`, and for an integer
exponent `Real.rpow` agrees with `Math.pow` on negative bases. -/
noncomputable def cagrOf (tr : ℚ) (m : ℕ) : Option ℝ :=
  let nn : ℕ := if m = 0 then 1 else m
  if 1 + tr < 0 ∧ ¬ (nn ∣ 252) then none
  else some ((1 + (tr : ℝ)) ^ ((252 : ℝ) / nn) - 1)

/-- Scenario A bar 0: close 100 on day 0 (spec §8, concrete scenario A). -/
def barA0 : OHLCV := { t := 0, openP := 100, high := 100, low := 100, close := 100, volume := 0 }

/-- Scenario A bar 1: close 105 on day 1. -/
def barA1 : OHLCV := { t := 1, openP := 105, high := 105, low := 105, close := 105, volume := 0 }

/-- Scenario A bar 2: close 110 on day 2. -/
def barA2 : OHLCV := { t := 2, openP := 110, high := 110, low := 110, close := 110, volume := 0 }

/-- Scenario A arguments: desired exposure `[1,1,1]`, zero fee and slippage,
volume gating and event scaling disabled, ATR undefined (stop disabled). -/
def argsA : BTArgs :=
  { rows := [barA0, barA1, barA2]
    signal := [1, 1, 1]
    atr := [none, none, none]
    volumeRatioSeq := [none, none, none]
    eventCountByDate := fun _ => none
    feeBps := 0
    slipBps := 0
    atrStopK := 0
    volumeGateOn := false
    volumeGateThr := 0
    eventScaleOn := false
    eventCountThr := 0
    eventScale := 1 }

/-- Scenario A expected result: enter at bar 0's close, equity 21/20 then
11/10, total return 1/10, one trade, no exits. -/
def resultA : BacktestResult :=
  { curve := [(1, 21 / 20), (2, 11 / 10)]
    daily := [1 / 20, 1 / 21]
    trades := 1
    wins := 0
    losses := 0
    stats := { totalReturn := 1 / 10, maxDrawdown := 0, costBps := 0 } }

/-- Concrete bar for the stop-liquidation and zero-exposure witnesses. -/
def barW : OHLCV := { t := 5, openP := 92, high := 93, low := 90, close := 92, volume := 0 }

/-- Concrete LONG state (entry 100, stop 95) for the stop-liquidation witness. -/
def stateW : BTState :=
  { equity := 1, pos := 1, entryPrice := some 100, stopLevel := some 95,
    trades := 1, wins := 0, losses := 0, curve := [], daily := [] }

/-- Arguments with event scaling enabled, threshold 1 and scale factor 0;
day 5 carries 3 events. -/
def argsW9 : BTArgs :=
  { argsA with
    eventScaleOn := true
    eventCountThr := 1
    eventScale := 0
    eventCountByDate := fun d => if d = 5 then some 3 else none }

/-- Arguments with the gate on and an unreachably high threshold: the ratio
series holds 1 everywhere while the threshold is 100. -/
def argsW3 : BTArgs :=
  { argsA with
    volumeGateOn := true
    volumeGateThr := 100
    volumeRatioSeq := [some 1, some 1, some 1] }

/-- Three concrete bars with closes 10, 5, 20 for the mean-reversion witness. -/
def rowsW7 : List OHLCV :=
  [{ t := 0, openP := 10, high := 10, low := 10, close := 10, volume := 0 },
   { t := 1, openP := 5, high := 5, low := 5, close := 5, volume := 0 },
   { t := 2, openP := 20, high := 20, low := 20, close := 20, volume := 0 }]

theorem jsMax_eq (a b : ℚ) : jsMax a b = max a b := by
  unfold jsMax
  rcases le_total a b with h | h
  · simp [h, max_eq_right h]
  · rcases eq_or_lt_of_le h with rfl | h'
    · simp
    · rw [if_neg (not_le.2 h'), max_eq_left h]

theorem jsMin_eq (a b : ℚ) : jsMin a b = min a b := by
  unfold jsMin
  rcases le_total a b with h | h
  · simp [h, min_eq_left h]
  · rcases eq_or_lt_of_le h with rfl | h'
    · simp
    · rw [if_neg (not_le.2 h'), min_eq_right h]

/-- C1: on the three-bar series with closes [100, 105, 110], signal [1,1,1],
zero fee/slippage, gating and scaling off, ATR undefined, the simulation
enters at the close of bar 0 at price 100 with trade count 1 (second and
third conjuncts, stated on the transition phase of bar 1), produces equity
21/20 = 1.05 after bar 1 and 11/10 = 1.05·(110/105) after bar 2, reports
total return 1/10 ≈ 0.10, and records no exits (winCount = lossCount = 0). -/
theorem C1_scenarioA :
    backtestFromSignal argsA = some resultA ∧
    (btTrans argsA barA0.close 1 initState).entryPrice = some 100 ∧
    (btTrans argsA barA0.close 1 initState).trades = 1 := by
  refine ⟨?_, ?_, ?_⟩ <;>
    norm_num [backtestFromSignal, btGo, btStep, btTrans, btRealize, btOrdinary,
      desiredOf, allowEntryOf, stopLevelOf, exposureForDay, costRate, clamp,
      jsMax, jsMin, initState, computeMaxDrawdownFromCurve, mddGo,
      exitWinLoss, stopWinLoss, argsA, barA0, barA1, barA2, resultA]

/-- C4: the simulation is deterministic: identical argument records produce
identical results — the curve, daily returns and counters (first conjunct),
the reported sharpe (second) and the reported cagr (third). -/
theorem C4_determinism (a b : BTArgs) (h : a = b) :
    backtestFromSignal a = backtestFromSignal b ∧
    (backtestFromSignal a).map reportedSharpe = (backtestFromSignal b).map reportedSharpe ∧
    (backtestFromSignal a).map (fun r => cagrOf r.stats.totalReturn r.daily.length)
      = (backtestFromSignal b).map (fun r => cagrOf r.stats.totalReturn r.daily.length) := by
  subst h
  exact ⟨rfl, rfl, rfl⟩

theorem C4_determinism_witness :
    backtestFromSignal argsA = backtestFromSignal argsA ∧
    (backtestFromSignal argsA).map reportedSharpe
      = (backtestFromSignal argsA).map reportedSharpe ∧
    (backtestFromSignal argsA).map (fun r => cagrOf r.stats.totalReturn r.daily.length)
      = (backtestFromSignal argsA).map (fun r => cagrOf r.stats.totalReturn r.daily.length) :=
  C4_determinism argsA argsA rfl

/-- C2: a LONG position with positive exposure whose stop level is defined
and touched by the bar's low (with a positive previous close and a positive
entry price) is force-liquidated at the stop level: the realized return
`expo·(stopLevel/prevClose − 1)` is applied multiplicatively to equity, then
the exit cost factor; the trade count increments; the exit is a win iff
`stopLevel/entryPrice − 1 ≥ 0`; the state becomes FLAT with entry price and
stop level cleared, regardless of the bar's signal. -/
theorem C2_stopLiquidation (a : BTArgs) (pc : ℚ) (td : OHLCV) (s : BTState)
    (sl ep : ℚ)
    (hpos : s.pos = 1)
    (hsl : s.stopLevel = some sl)
    (hep : s.entryPrice = some ep)
    (hep0 : 0 < ep)
    (hlow : td.low ≤ sl)
    (hpc : 0 < pc)
    (hexpo : 0 < exposureForDay a td.t) :
    btRealize a pc td s =
      { equity := s.equity * (1 + exposureForDay a td.t * (sl / pc - 1)) * (1 - costRate a)
        pos := 0
        entryPrice := none
        stopLevel := none
        trades := s.trades + 1
        wins := if 0 ≤ sl / ep - 1 then s.wins + 1 else s.wins
        losses := if 0 ≤ sl / ep - 1 then s.losses else s.losses + 1
        curve := s.curve ++
          [(td.t, s.equity * (1 + exposureForDay a td.t * (sl / pc - 1)) * (1 - costRate a))]
        daily := s.daily ++ [exposureForDay a td.t * (sl / pc - 1)] } := by
  by_cases hwin : 0 ≤ sl / ep - 1 <;>
    simp [btRealize, hpos, hsl, hep, hexpo, hlow, hpc, stopWinLoss, hep0, hwin]

theorem C2_stopLiquidation_witness :
    btRealize argsA 100 barW stateW =
      { equity := stateW.equity * (1 + exposureForDay argsA barW.t * ((95 : ℚ) / 100 - 1))
          * (1 - costRate argsA)
        pos := 0
        entryPrice := none
        stopLevel := none
        trades := stateW.trades + 1
        wins := if 0 ≤ (95 : ℚ) / 100 - 1 then stateW.wins + 1 else stateW.wins
        losses := if 0 ≤ (95 : ℚ) / 100 - 1 then stateW.losses else stateW.losses + 1
        curve := stateW.curve ++
          [(barW.t, stateW.equity * (1 + exposureForDay argsA barW.t * ((95 : ℚ) / 100 - 1))
            * (1 - costRate argsA))]
        daily := stateW.daily ++ [exposureForDay argsA barW.t * ((95 : ℚ) / 100 - 1)] } :=
  C2_stopLiquidation argsA 100 barW stateW 95 100 rfl rfl rfl (by norm_num)
    (by norm_num [barW]) (by norm_num)
    (by norm_num [exposureForDay, argsA])

/-- C9: a bar on which the post-transition state is LONG but event scaling
clamps the exposure to 0 (scaling on, the day's event count meets the
threshold, scale factor clamped to 0) skips the stop check even when the low
touches the stop level: nothing changes except that a 0 return and an
unchanged equity point are recorded. -/
theorem C9_zeroExposureFrame (a : BTArgs) (pc : ℚ) (td : OHLCV) (s : BTState) (sl : ℚ)
    (hpos : s.pos = 1)
    (hon : a.eventScaleOn = true)
    (hcnt : a.eventCountThr ≤ (a.eventCountByDate td.t).getD 0)
    (hscale : clamp a.eventScale 0 1 = 0)
    (hsl : s.stopLevel = some sl)
    (hlow : td.low ≤ sl) :
    btRealize a pc td s =
      { s with
        curve := s.curve ++ [(td.t, s.equity)]
        daily := s.daily ++ [0] } := by
  have hexpo : exposureForDay a td.t = 0 := by
    simp [exposureForDay, hon, hcnt, hscale]
  simp [btRealize, hpos, hexpo]

theorem desiredOf_cases (a : BTArgs) (i : ℕ) : desiredOf a i = 0 ∨ desiredOf a i = 1 := by
  unfold desiredOf
  split
  · exact Or.inr rfl
  · exact Or.inl rfl

theorem gateBlocksEntry (a : BTArgs) (pc : ℚ) (i : ℕ) (s : BTState)
    (hg : a.volumeGateOn = true) (hpos : s.pos = 0) (hdes : desiredOf a i = 1)
    (hv : ∀ v, (a.volumeRatioSeq.get? (i - 1)).join = some v → v < a.volumeGateThr) :
    btTrans a pc i s = s := by
  have hae : allowEntryOf a i s = false := by
    unfold allowEntryOf
    rw [if_pos ⟨hg, hpos, hdes⟩]
    rcases hj : (a.volumeRatioSeq.get? (i - 1)).join with _ | v
    · rfl
    · exact decide_eq_false (not_le.mpr (hv v hj))
  unfold btTrans
  rw [if_neg (by rw [hdes, hpos]; exact one_ne_zero), if_pos ⟨hdes, hae⟩]

theorem gateIndependentWhenLong (a : BTArgs) (g : Bool) (vrs : List (Option ℚ))
    (pc : ℚ) (i : ℕ) (s : BTState) (hpos : s.pos = 1) :
    btTrans { a with volumeGateOn := g, volumeRatioSeq := vrs } pc i s = btTrans a pc i s := by
  have ha : ∀ b : BTArgs, allowEntryOf b i s = true := by
    intro b
    unfold allowEntryOf
    rw [if_neg]
    rintro ⟨-, h2, -⟩
    rw [hpos] at h2
    exact one_ne_zero h2
  unfold btTrans
  simp only [ha]
  rfl

theorem btRealize_notLong (a : BTArgs) (pc : ℚ) (td : OHLCV) (s : BTState)
    (h : ¬ s.pos = 1) :
    btRealize a pc td s =
      { s with
        curve := s.curve ++ [(td.t, s.equity)]
        daily := s.daily ++ [0] } := by
  simp [btRealize, h]

theorem btGo_gated (a : BTArgs) (hg : a.volumeGateOn = true)
    (hv : ∀ j v, (a.volumeRatioSeq.get? j).join = some v → v < a.volumeGateThr) :
    ∀ (rest : List OHLCV) (prev : OHLCV) (i : ℕ) (s : BTState),
      s.pos = 0 → s.trades = 0 →
      (btGo a prev rest i s).pos = 0 ∧ (btGo a prev rest i s).trades = 0 := by
  intro rest
  induction rest with
  | nil => exact fun prev i s h0 ht => ⟨h0, ht⟩
  | cons td rest ih =>
    intro prev i s h0 ht
    have hts : btTrans a prev.close i s = s := by
      rcases desiredOf_cases a i with hd | hd
      · unfold btTrans
        rw [if_pos (by rw [hd, h0])]
      · exact gateBlocksEntry a prev.close i s hg h0 hd (fun v hjv => hv (i - 1) v hjv)
    have hstep : btStep a prev td i s =
        { s with
          curve := s.curve ++ [(td.t, s.equity)]
          daily := s.daily ++ [0] } := by
      unfold btStep
      rw [hts]
      exact btRealize_notLong a prev.close td s (by rw [h0]; exact zero_ne_one)
    show (btGo a td rest (i + 1) (btStep a prev td i s)).pos = 0 ∧
      (btGo a td rest (i + 1) (btStep a prev td i s)).trades = 0
    rw [hstep]
    exact ih td (i + 1) _ h0 ht

/-- C3: with volume gating enabled, an entry (FLAT with desired exposure 1)
is blocked for the step whenever `volumeRatio[i−1]` is undefined or below
the threshold (first conjunct: the transition leaves the state unchanged);
when the position is LONG the transition does not depend on the gate or the
ratio series at all, so gating never forces an exit (second conjunct); and
with the threshold above every defined ratio of the series the engine never
opens a position: the trade count of the run stays 0 (third conjunct). -/
theorem C3_volumeGate :
    (∀ (a : BTArgs) (pc : ℚ) (i : ℕ) (s : BTState),
      a.volumeGateOn = true → s.pos = 0 → desiredOf a i = 1 →
      (∀ v, (a.volumeRatioSeq.get? (i - 1)).join = some v → v < a.volumeGateThr) →
      btTrans a pc i s = s) ∧
    (∀ (a : BTArgs) (g : Bool) (vrs : List (Option ℚ)) (pc : ℚ) (i : ℕ) (s : BTState),
      s.pos = 1 →
      btTrans { a with volumeGateOn := g, volumeRatioSeq := vrs } pc i s = btTrans a pc i s) ∧
    (∀ (a : BTArgs) (r : BacktestResult),
      a.volumeGateOn = true →
      (∀ j v, (a.volumeRatioSeq.get? j).join = some v → v < a.volumeGateThr) →
      backtestFromSignal a = some r → r.trades = 0) := by
  refine ⟨gateBlocksEntry, gateIndependentWhenLong, ?_⟩
  intro a r hg hv hres
  unfold backtestFromSignal at hres
  rcases hrows : a.rows with _ | ⟨b0, _ | ⟨b1, rest⟩⟩ <;> rw [hrows] at hres
  · exact absurd hres (by simp)
  · exact absurd hres (by simp)
  · have := (btGo_gated a hg hv (b1 :: rest) b0 1 initState rfl rfl).2
    have hr : r = { curve := (btGo a b0 (b1 :: rest) 1 initState).curve
                    daily := (btGo a b0 (b1 :: rest) 1 initState).daily
                    trades := (btGo a b0 (b1 :: rest) 1 initState).trades
                    wins := (btGo a b0 (b1 :: rest) 1 initState).wins
                    losses := (btGo a b0 (b1 :: rest) 1 initState).losses
                    stats := { totalReturn := (btGo a b0 (b1 :: rest) 1 initState).equity - 1
                               maxDrawdown := computeMaxDrawdownFromCurve
                                 (btGo a b0 (b1 :: rest) 1 initState).curve
                               costBps := a.feeBps + a.slipBps } } :=
      (Option.some.inj hres).symm
    rw [hr]
    exact this

theorem C3_volumeGate_witness :
    btTrans argsW3 100 1 initState = initState ∧
    btTrans { argsW3 with volumeGateOn := false, volumeRatioSeq := [] } 100 1 stateW
      = btTrans argsW3 100 1 stateW ∧
    (backtestFromSignal argsW3).map BacktestResult.trades = some 0 := by
  obtain ⟨h1, h2, h3⟩ := C3_volumeGate
  have hv : ∀ j v, (argsW3.volumeRatioSeq.get? j).join = some v → v < argsW3.volumeGateThr := by
    intro j v hj
    have : j < 3 ∨ 3 ≤ j := lt_or_ge j 3
    rcases this with hj3 | hj3
    · interval_cases j <;>
        simp [argsW3, argsA] at hj <;> rw [← hj] <;> norm_num [argsW3, argsA]
    · rw [List.get?_eq_none.mpr (by simpa [argsW3, argsA] using hj3)] at hj
      exact absurd hj (by simp)
  have hfull : backtestFromSignal argsW3 =
      some { curve := [(1, 1), (2, 1)]
             daily := [0, 0]
             trades := 0
             wins := 0
             losses := 0
             stats := { totalReturn := 0, maxDrawdown := 0, costBps := 0 } } := by
    norm_num [backtestFromSignal, btGo, btStep, btTrans, btRealize, btOrdinary,
      desiredOf, allowEntryOf, stopLevelOf, exposureForDay, costRate, clamp,
      jsMax, jsMin, initState, computeMaxDrawdownFromCurve, mddGo,
      exitWinLoss, stopWinLoss, argsW3, argsA, barA0, barA1, barA2]
  refine ⟨h1 argsW3 100 1 initState rfl rfl (by norm_num [desiredOf, argsW3, argsA]) ?_,
    h2 argsW3 false [] 100 1 stateW rfl, ?_⟩
  · exact fun v hj => hv 0 v hj
  · rw [hfull]
    exact congrArg some (h3 argsW3 _ rfl hv hfull)

theorem exitWinLoss_sum_le (ep : Option ℚ) (pc : ℚ) :
    (exitWinLoss ep pc).1 + (exitWinLoss ep pc).2 ≤ 1 := by
  rcases ep with _ | e
  · simp [exitWinLoss]
  · simp only [exitWinLoss]
    split_ifs <;> simp

theorem stopWinLoss_sum_le (ep : Option ℚ) (sl : ℚ) :
    (stopWinLoss ep sl).1 + (stopWinLoss ep sl).2 ≤ 1 := by
  rcases ep with _ | e
  · simp [stopWinLoss]
  · simp only [stopWinLoss]
    split_ifs <;> simp

theorem btTrans_wl (a : BTArgs) (pc : ℚ) (i : ℕ) (s : BTState)
    (h : s.wins + s.losses ≤ s.trades) :
    (btTrans a pc i s).wins + (btTrans a pc i s).losses ≤ (btTrans a pc i s).trades := by
  have he := exitWinLoss_sum_le s.entryPrice pc
  unfold btTrans
  split_ifs <;> simp <;> omega

theorem btRealize_wl (a : BTArgs) (pc : ℚ) (td : OHLCV) (s : BTState)
    (h : s.wins + s.losses ≤ s.trades) :
    (btRealize a pc td s).wins + (btRealize a pc td s).losses ≤ (btRealize a pc td s).trades := by
  by_cases hp : s.pos = 1
  · by_cases hx : 0 < exposureForDay a td.t
    · rcases hsl : s.stopLevel with _ | sl
      · simp [btRealize, btOrdinary, hp, hx, hsl]
        exact h
      · by_cases hstop : td.low ≤ sl ∧ 0 < pc
        · have := stopWinLoss_sum_le s.entryPrice sl
          simp [btRealize, hp, hx, hsl, hstop]
          omega
        · simp [btRealize, btOrdinary, hp, hx, hsl, hstop]
          exact h
    · simp [btRealize, hp, hx]
      exact h
  · simp [btRealize, hp]
    exact h

theorem btGo_wl (a : BTArgs) :
    ∀ (rest : List OHLCV) (prev : OHLCV) (i : ℕ) (s : BTState),
      s.wins + s.losses ≤ s.trades →
      (btGo a prev rest i s).wins + (btGo a prev rest i s).losses
        ≤ (btGo a prev rest i s).trades := by
  intro rest
  induction rest with
  | nil => exact fun prev i s h => h
  | cons td rest ih =>
    intro prev i s h
    exact ih td (i + 1) (btStep a prev td i s)
      (btRealize_wl a prev.close td _ (btTrans_wl a prev.close i s h))

/-- C8: every produced result satisfies `winCount + lossCount ≤ tradeCount`:
entries increment the trade count without a win/loss record, and each exit
(signal- or stop-driven) adds one trade and at most one win-or-loss. -/
theorem C8_winLossAccounting (a : BTArgs) (r : BacktestResult)
    (hres : backtestFromSignal a = some r) :
    r.wins + r.losses ≤ r.trades := by
  unfold backtestFromSignal at hres
  rcases hrows : a.rows with _ | ⟨b0, _ | ⟨b1, rest⟩⟩ <;> rw [hrows] at hres
  · exact absurd hres (by simp)
  · exact absurd hres (by simp)
  · have hr := (Option.some.inj hres).symm
    rw [hr]
    exact btGo_wl a (b1 :: rest) b0 1 initState (by simp [initState])

theorem C8_winLossAccounting_witness :
    resultA.wins + resultA.losses ≤ resultA.trades :=
  C8_winLossAccounting argsA resultA (by
    norm_num [backtestFromSignal, btGo, btStep, btTrans, btRealize, btOrdinary,
      desiredOf, allowEntryOf, stopLevelOf, exposureForDay, costRate, clamp,
      jsMax, jsMin, initState, computeMaxDrawdownFromCurve, mddGo,
      exitWinLoss, stopWinLoss, argsA, barA0, barA1, barA2, resultA])

theorem costRate_nonneg (a : BTArgs) : 0 ≤ costRate a := by
  unfold costRate clamp
  rw [jsMax_eq]
  exact le_max_left 0 _

theorem costRate_le_tenth (a : BTArgs) : costRate a ≤ 1 / 10 := by
  unfold costRate clamp
  rw [jsMax_eq, jsMin_eq]
  exact max_le (by norm_num) (min_le_left _ _)

theorem clamp01_nonneg (x : ℚ) : 0 ≤ clamp x 0 1 := by
  unfold clamp
  rw [jsMax_eq]
  exact le_max_left 0 _

theorem clamp01_le_one (x : ℚ) : clamp x 0 1 ≤ 1 := by
  unfold clamp
  rw [jsMax_eq, jsMin_eq]
  exact max_le (by norm_num) (min_le_left _ _)

theorem expo_nonneg (a : BTArgs) (t : ℕ) : 0 ≤ exposureForDay a t := by
  unfold exposureForDay
  split_ifs
  · norm_num
  · exact clamp01_nonneg _
  · norm_num

theorem expo_le_one (a : BTArgs) (t : ℕ) : exposureForDay a t ≤ 1 := by
  unfold exposureForDay
  split_ifs
  · norm_num
  · exact clamp01_le_one _
  · norm_num

theorem one_add_mul_nonneg (e x : ℚ) (he0 : 0 ≤ e) (he1 : e ≤ 1) (hx : -1 ≤ x) :
    0 ≤ 1 + e * x := by nlinarith

theorem btTrans_equity_nonneg (a : BTArgs) (pc : ℚ) (i : ℕ) (s : BTState)
    (h : 0 ≤ s.equity) : 0 ≤ (btTrans a pc i s).equity := by
  have hc : (0 : ℚ) ≤ 1 - costRate a := by linarith [costRate_le_tenth a]
  unfold btTrans
  split_ifs
  · exact h
  · exact h
  · exact mul_nonneg h hc
  · exact mul_nonneg h hc

theorem btTrans_curve_eq (a : BTArgs) (pc : ℚ) (i : ℕ) (s : BTState) :
    (btTrans a pc i s).curve = s.curve := by
  unfold btTrans
  split_ifs <;> rfl

theorem btTrans_daily_eq (a : BTArgs) (pc : ℚ) (i : ℕ) (s : BTState) :
    (btTrans a pc i s).daily = s.daily := by
  unfold btTrans
  split_ifs <;> rfl

theorem btOrdinary_step (pc : ℚ) (td : OHLCV) (expo : ℚ) (s : BTState)
    (hclose : 0 ≤ td.close) (he : 0 ≤ s.equity) (h0 : 0 ≤ expo) (h1 : expo ≤ 1) :
    0 ≤ (btOrdinary pc td expo s).equity ∧
    (btOrdinary pc td expo s).curve = s.curve ++ [(td.t, (btOrdinary pc td expo s).equity)] ∧
    ∃ r, (btOrdinary pc td expo s).daily = s.daily ++ [r] ∧ -1 ≤ r := by
  have hrr : -1 ≤ (if 0 < pc then td.close / pc - 1 else 0) := by
    split_ifs with hpc
    · have : 0 ≤ td.close / pc := div_nonneg hclose hpc.le
      linarith
    · norm_num
  have hone := one_add_mul_nonneg expo _ h0 h1 hrr
  exact ⟨mul_nonneg he hone, rfl,
    ⟨expo * (if 0 < pc then td.close / pc - 1 else 0), rfl, by linarith⟩⟩

theorem btRealize_step (a : BTArgs) (pc : ℚ) (td : OHLCV) (s : BTState)
    (hlow : 0 ≤ td.low) (hclose : 0 ≤ td.close) (he : 0 ≤ s.equity) :
    0 ≤ (btRealize a pc td s).equity ∧
    (btRealize a pc td s).curve = s.curve ++ [(td.t, (btRealize a pc td s).equity)] ∧
    ∃ r, (btRealize a pc td s).daily = s.daily ++ [r] ∧ -1 ≤ r := by
  have h0 := expo_nonneg a td.t
  have h1 := expo_le_one a td.t
  by_cases hp : s.pos = 1
  · by_cases hx : 0 < exposureForDay a td.t
    · rcases hsl : s.stopLevel with _ | sl
      · have hbt : btRealize a pc td s = btOrdinary pc td (exposureForDay a td.t) s := by
          simp [btRealize, hp, hx, hsl]
        rw [hbt]
        exact btOrdinary_step pc td _ s hclose he h0 h1
      · by_cases hstop : td.low ≤ sl ∧ 0 < pc
        · have hsl0 : 0 ≤ sl := le_trans hlow hstop.1
          have hr1 : -1 ≤ sl / pc - 1 := by
            have : 0 ≤ sl / pc := div_nonneg hsl0 hstop.2.le
            linarith
          have hone := one_add_mul_nonneg _ _ h0 h1 hr1
          have hc : (0 : ℚ) ≤ 1 - costRate a := by linarith [costRate_le_tenth a]
          have hbt : btRealize a pc td s =
              { equity := s.equity * (1 + exposureForDay a td.t * (sl / pc - 1)) * (1 - costRate a)
                pos := 0
                entryPrice := none
                stopLevel := none
                trades := s.trades + 1
                wins := s.wins + (stopWinLoss s.entryPrice sl).1
                losses := s.losses + (stopWinLoss s.entryPrice sl).2
                curve := s.curve ++
                  [(td.t, s.equity * (1 + exposureForDay a td.t * (sl / pc - 1)) * (1 - costRate a))]
                daily := s.daily ++ [exposureForDay a td.t * (sl / pc - 1)] } := by
            simp [btRealize, hp, hx, hsl, hstop]
          rw [hbt]
          exact ⟨mul_nonneg (mul_nonneg he hone) hc, rfl,
            ⟨exposureForDay a td.t * (sl / pc - 1), rfl, by linarith⟩⟩
        · have hbt : btRealize a pc td s = btOrdinary pc td (exposureForDay a td.t) s := by
            simp [btRealize, hp, hx, hsl, hstop]
          rw [hbt]
          exact btOrdinary_step pc td _ s hclose he h0 h1
    · have hbt : btRealize a pc td s =
          { s with
            curve := s.curve ++ [(td.t, s.equity)]
            daily := s.daily ++ [0] } := by
        simp [btRealize, hp, hx]
      rw [hbt]
      exact ⟨he, rfl, ⟨0, rfl, by norm_num⟩⟩
  · have hbt := btRealize_notLong a pc td s hp
    rw [hbt]
    exact ⟨he, rfl, ⟨0, rfl, by norm_num⟩⟩

theorem btGo_safe (a : BTArgs) :
    ∀ (rest : List OHLCV) (prev : OHLCV) (i : ℕ) (s : BTState),
      (∀ b ∈ rest, 0 ≤ b.low ∧ 0 ≤ b.close) →
      0 ≤ s.equity → (∀ x ∈ s.curve, 0 ≤ x.2) → (∀ r ∈ s.daily, -1 ≤ r) →
      0 ≤ (btGo a prev rest i s).equity ∧
      (∀ x ∈ (btGo a prev rest i s).curve, 0 ≤ x.2) ∧
      (∀ r ∈ (btGo a prev rest i s).daily, -1 ≤ r) := by
  intro rest
  induction rest with
  | nil => exact fun prev i s _ he hc hd => ⟨he, hc, hd⟩
  | cons td rest ih =>
    intro prev i s hb he hc hd
    have htd := hb td (List.mem_cons_self td rest)
    have he1 := btTrans_equity_nonneg a prev.close i s he
    obtain ⟨he2, hcv, r, hdl, hr⟩ :=
      btRealize_step a prev.close td (btTrans a prev.close i s) htd.1 htd.2 he1
    have hc2 : ∀ x ∈ (btStep a prev td i s).curve, 0 ≤ x.2 := by
      intro x hx
      rw [show (btStep a prev td i s).curve
            = (btRealize a prev.close td (btTrans a prev.close i s)).curve from rfl, hcv,
        btTrans_curve_eq] at hx
      rcases List.mem_append.mp hx with hx | hx
      · exact hc x hx
      · rcases List.mem_singleton.mp hx with rfl
        exact he2
    have hd2 : ∀ x ∈ (btStep a prev td i s).daily, -1 ≤ x := by
      intro x hx
      rw [show (btStep a prev td i s).daily
            = (btRealize a prev.close td (btTrans a prev.close i s)).daily from rfl, hdl,
        btTrans_daily_eq] at hx
      rcases List.mem_append.mp hx with hx | hx
      · exact hd x hx
      · rcases List.mem_singleton.mp hx with rfl
        exact hr
    exact ih td (i + 1) (btStep a prev td i s)
      (fun b hbm => hb b (List.mem_cons_of_mem td hbm)) he2 hc2 hd2

/-- C10: when every bar has non-negative low and close, every equity value
of the emitted curve is non-negative (first conjunct), hence the total
return is at least −1 (second conjunct); moreover each recorded per-bar
return is at least −1 (third conjunct) and the cost factor `1 − costRate`
lies in `[0.9, 1]` (fourth conjunct). -/
theorem C10_equityNonneg (a : BTArgs) (r : BacktestResult)
    (hbars : ∀ b ∈ a.rows, 0 ≤ b.low ∧ 0 ≤ b.close)
    (hres : backtestFromSignal a = some r) :
    (∀ x ∈ r.curve, 0 ≤ x.2) ∧ -1 ≤ r.stats.totalReturn ∧
    (∀ d ∈ r.daily, -1 ≤ d) ∧
    (9 / 10 ≤ 1 - costRate a ∧ 1 - costRate a ≤ 1) := by
  have hcost : 9 / 10 ≤ 1 - costRate a ∧ 1 - costRate a ≤ 1 :=
    ⟨by linarith [costRate_le_tenth a], by linarith [costRate_nonneg a]⟩
  unfold backtestFromSignal at hres
  rcases hrows : a.rows with _ | ⟨b0, _ | ⟨b1, rest⟩⟩ <;> rw [hrows] at hres
  · exact absurd hres (by simp)
  · exact absurd hres (by simp)
  · have hb : ∀ b ∈ b1 :: rest, 0 ≤ b.low ∧ 0 ≤ b.close := by
      intro b hbm
      exact hbars b (by rw [hrows]; exact List.mem_cons_of_mem b0 hbm)
    obtain ⟨hge, hcv, hdl⟩ := btGo_safe a (b1 :: rest) b0 1 initState hb
      (by norm_num [initState]) (by simp [initState]) (by simp [initState])
    have hr := (Option.some.inj hres).symm
    rw [hr]
    exact ⟨hcv, by simpa using hge, hdl, hcost⟩

theorem C10_equityNonneg_witness :
    (∀ x ∈ resultA.curve, 0 ≤ x.2) ∧ -1 ≤ resultA.stats.totalReturn ∧
    (∀ d ∈ resultA.daily, -1 ≤ d) ∧
    (9 / 10 ≤ 1 - costRate argsA ∧ 1 - costRate argsA ≤ 1) :=
  C10_equityNonneg argsA resultA
    (by
      intro b hb
      simp [argsA, barA0, barA1, barA2] at hb
      rcases hb with rfl | rfl | rfl <;> norm_num [barA0, barA1, barA2])
    (by
      norm_num [backtestFromSignal, btGo, btStep, btTrans, btRealize, btOrdinary,
        desiredOf, allowEntryOf, stopLevelOf, exposureForDay, costRate, clamp,
        jsMax, jsMin, initState, computeMaxDrawdownFromCurve, mddGo,
        exitWinLoss, stopWinLoss, argsA, barA0, barA1, barA2, resultA])

theorem varQ_nonneg (xs : List ℚ) (v : ℚ) (h : varQ xs = some v) : 0 ≤ v := by
  unfold varQ at h
  split_ifs at h with h2
  have hlen : 2 ≤ xs.length := by omega
  have hden : (0 : ℚ) ≤ (xs.length : ℚ) - 1 := by
    have : (2 : ℚ) ≤ (xs.length : ℚ) := by exact_mod_cast hlen
    linarith
  have hsum : 0 ≤ (xs.map fun b =>
      (b - xs.sum / xs.length) * (b - xs.sum / xs.length)).sum := by
    apply List.sum_nonneg
    intro x hx
    rcases List.mem_map.mp hx with ⟨b, -, rfl⟩
    exact mul_self_nonneg _
  rw [← Option.some.inj h]
  exact div_nonneg hsum hden

/-- C5: the reported sharpe is the explicit undefined marker exactly when
there are fewer than 2 return observations or the sample variance is zero
(first conjunct); whenever defined it equals
`mean(dailyReturns)/sampleStdDev(dailyReturns)·√252` (second conjunct); and
the marker is distinguishable from any set numeric value, in particular from
zero (third conjunct) — the computation is total, nothing is raised. -/
theorem C5_sharpeFormula (r : BacktestResult) :
    (reportedSharpe r = none ↔ r.daily.length < 2 ∨ varQ r.daily = some 0) ∧
    (∀ m v, meanQ r.daily = some m → varQ r.daily = some v → v ≠ 0 →
      reportedSharpe r = some ((m : ℝ) / Real.sqrt (v : ℝ) * Real.sqrt 252)) ∧
    ((none : Option ℝ) ≠ some 0) := by
  refine ⟨?_, ?_, by simp⟩
  · by_cases h2 : r.daily.length < 2
    · have hv : varQ r.daily = none := by
        unfold varQ
        rw [if_pos h2]
      have hs : reportedSharpe r = none := by
        unfold reportedSharpe sharpeOf stdOf
        rw [hv]
        rcases meanQ r.daily with _ | m <;> rfl
      rw [hs]
      simp [h2]
    · have hlen0 : r.daily.length ≠ 0 := by omega
      have hm : meanQ r.daily = some (r.daily.sum / r.daily.length) := by
        unfold meanQ
        rw [if_neg hlen0]
      obtain ⟨V, hv⟩ : ∃ V, varQ r.daily = some V := by
        unfold varQ
        rw [if_neg h2]
        exact ⟨_, rfl⟩
      have hV0 := varQ_nonneg _ _ hv
      unfold reportedSharpe sharpeOf stdOf
      rw [hm, hv]
      simp only [Option.map_some']
      constructor
      · intro h
        split_ifs at h with hs0
        · right
          have hle := Real.sqrt_eq_zero'.mp hs0
          have hq : V = 0 := le_antisymm (by exact_mod_cast hle) hV0
          rw [hq]
      · intro h
        rcases h with h | h
        · omega
        · have hV : V = 0 := Option.some.inj h
          rw [if_pos (by rw [hV]; simp)]
  · intro m v hm hv hvne
    have hV0 := varQ_nonneg _ _ hv
    have hVpos : 0 < v := lt_of_le_of_ne hV0 (Ne.symm hvne)
    have hsq : Real.sqrt (v : ℝ) ≠ 0 := by
      have : (0 : ℝ) < Real.sqrt (v : ℝ) := Real.sqrt_pos.mpr (by exact_mod_cast hVpos)
      linarith
    unfold reportedSharpe sharpeOf stdOf
    rw [hm, hv]
    simp only [Option.map_some']
    rw [if_neg hsq]

theorem C5_sharpeFormula_witness :
    reportedSharpe resultA =
      some ((((41 : ℚ) / 840 : ℚ) : ℝ) / Real.sqrt (((1 : ℚ) / 352800 : ℚ) : ℝ)
        * Real.sqrt 252) :=
  (C5_sharpeFormula resultA).2.1 (41 / 840) (1 / 352800)
    (by norm_num [meanQ, resultA, List.sum_cons, List.sum_nil])
    (by norm_num [varQ, resultA, List.sum_cons, List.sum_nil, List.map_cons, List.map_nil])
    (by norm_num)

theorem jsMax0_nonneg (x : ℚ) : 0 ≤ jsMax 0 x := by
  unfold jsMax
  split_ifs with h
  · exact h
  · exact le_refl 0

theorem rsiOut_range (g l : ℚ) (hg : 0 ≤ g) (hl : 0 ≤ l) :
    0 ≤ rsiOut g l ∧ rsiOut g l ≤ 100 := by
  unfold rsiOut
  split_ifs with h0
  · norm_num
  · have hrs : 0 ≤ g / l := div_nonneg hg hl
    have h1 : (0 : ℚ) < 1 + g / l := by linarith
    have hle : 100 / (1 + g / l) ≤ 100 := by
      rw [div_le_iff h1]
      nlinarith
    have hpos : 0 < 100 / (1 + g / l) := by positivity
    constructor <;> linarith

theorem rsiGo_early (period : ℕ) :
    ∀ (rest : List ℚ) (prev : ℚ) (i : ℕ) (gains losses : ℚ) (j : ℕ),
      i + j < period →
      (rsiGo period prev rest i gains losses).getD j none = none := by
  intro rest
  induction rest with
  | nil =>
    intro prev i g l j h
    simp [rsiGo]
  | cons c rest ih =>
    intro prev i g l j h
    have hip : i < period := lt_of_le_of_lt (Nat.le_add_right i j) h
    simp only [rsiGo, if_pos hip.le, if_neg hip.ne]
    cases j with
    | zero => rfl
    | succ j =>
      rw [List.getD_cons_succ]
      exact ih c (i + 1) _ _ j (by omega)

theorem rsiGo_range (period : ℕ) (hp : 1 ≤ period) :
    ∀ (rest : List ℚ) (prev : ℚ) (i : ℕ) (g l : ℚ), 0 ≤ g → 0 ≤ l →
      ∀ (j : ℕ) (v : ℚ), (rsiGo period prev rest i g l).get? j = some (some v) →
        0 ≤ v ∧ v ≤ 100 := by
  intro rest
  induction rest with
  | nil =>
    intro prev i g l hg hl j v h
    simp [rsiGo] at h
  | cons c rest ih =>
    intro prev i g l hg hl j v h
    by_cases hle : i ≤ period
    · simp only [rsiGo, if_pos hle] at h
      cases j with
      | zero =>
        rw [List.get?_cons_zero] at h
        by_cases hi : i = period
        · rw [if_pos hi] at h
          have hv := Option.some.inj (Option.some.inj h)
          rw [← hv]
          exact rsiOut_range _ _ (add_nonneg hg (jsMax0_nonneg _))
            (add_nonneg hl (jsMax0_nonneg _))
        · rw [if_neg hi] at h
          exact absurd (Option.some.inj h) (by simp)
      | succ j =>
        rw [List.get?_cons_succ] at h
        exact ih c (i + 1) _ _ (add_nonneg hg (jsMax0_nonneg _))
          (add_nonneg hl (jsMax0_nonneg _)) j v h
    · have hper : (0 : ℚ) < (period : ℚ) := by
        have : 0 < period := hp
        exact_mod_cast this
      have hpm1 : (0 : ℚ) ≤ (period : ℚ) - 1 := by
        have : (1 : ℚ) ≤ (period : ℚ) := by exact_mod_cast hp
        linarith
      have hg' : 0 ≤ (g * ((period : ℚ) - 1) + jsMax 0 (c - prev)) / (period : ℚ) :=
        div_nonneg (add_nonneg (mul_nonneg hg hpm1) (jsMax0_nonneg _)) hper.le
      have hl' : 0 ≤ (l * ((period : ℚ) - 1) + jsMax 0 (-(c - prev))) / (period : ℚ) :=
        div_nonneg (add_nonneg (mul_nonneg hl hpm1) (jsMax0_nonneg _)) hper.le
      simp only [rsiGo, if_neg hle] at h
      cases j with
      | zero =>
        rw [List.get?_cons_zero] at h
        have hv := Option.some.inj (Option.some.inj h)
        rw [← hv]
        exact rsiOut_range _ _ hg' hl'
      | succ j =>
        rw [List.get?_cons_succ] at h
        exact ih c (i + 1) _ _ hg' hl' j v h

/-- C6: for every close series and every period ≥ 1, the oscillator carries
the explicit undefined marker at every index strictly below `period` (first
conjunct), every defined value lies in `[0, 100]` (second conjunct), and a
zero smoothed loss makes the emitted value exactly 100 (third conjunct). -/
theorem C6_rsiRange (closes : List ℚ) (period : ℕ) (hp : 1 ≤ period) :
    (∀ i, i < period → (rsi closes period).getD i none = none) ∧
    (∀ i v, (rsi closes period).get? i = some (some v) → 0 ≤ v ∧ v ≤ 100) ∧
    (∀ g l, l = 0 → rsiOut g l = 100) := by
  refine ⟨?_, ?_, ?_⟩
  · intro i hi
    cases closes with
    | nil => simp [rsi]
    | cons c rest =>
      cases i with
      | zero => rfl
      | succ i =>
        show ((none :: rsiGo period c rest 1 0 0).getD (i + 1) none) = none
        rw [List.getD_cons_succ]
        exact rsiGo_early period rest c 1 0 0 i (by omega)
  · intro i v h
    cases closes with
    | nil => simp [rsi] at h
    | cons c rest =>
      cases i with
      | zero =>
        rw [show rsi (c :: rest) period = none :: rsiGo period c rest 1 0 0 from rfl,
          List.get?_cons_zero] at h
        exact absurd (Option.some.inj h) (by simp)
      | succ i =>
        rw [show rsi (c :: rest) period = none :: rsiGo period c rest 1 0 0 from rfl,
          List.get?_cons_succ] at h
        exact rsiGo_range period hp rest c 1 0 0 le_rfl le_rfl i v h
  · intro g l hl
    unfold rsiOut
    rw [if_pos hl]

theorem C6_rsiRange_witness :
    (rsi [1, 2, 3] 2).getD 1 none = none ∧ (0 ≤ (100 : ℚ) ∧ (100 : ℚ) ≤ 100) :=
  ⟨(C6_rsiRange [1, 2, 3] 2 (by decide)).1 1 (by decide),
    (C6_rsiRange [1, 2, 3] 2 (by decide)).2.1 2 100
      (by norm_num [rsi, rsiGo, rsiOut, jsMax])⟩

theorem rsiGo_length (period : ℕ) :
    ∀ (rest : List ℚ) (prev : ℚ) (i : ℕ) (g l : ℚ),
      (rsiGo period prev rest i g l).length = rest.length := by
  intro rest
  induction rest with
  | nil => intro prev i g l; rfl
  | cons c rest ih =>
    intro prev i g l
    by_cases hle : i ≤ period
    · simp only [rsiGo, if_pos hle, List.length_cons, ih]
    · simp only [rsiGo, if_neg hle, List.length_cons, ih]

theorem rsi_length (closes : List ℚ) (period : ℕ) :
    (rsi closes period).length = closes.length := by
  cases closes with
  | nil => rfl
  | cons c rest => simp [rsi, rsiGo_length]

theorem mrGo_get (e x : ℚ) :
    ∀ (l : List (Option ℚ)) (p : ℚ) (i : ℕ), i < l.length →
      (mrGo e x p l).get? i =
        some (mrStep e x (if i = 0 then p else (mrGo e x p l).getD (i - 1) 0)
          ((l.get? i).join)) := by
  intro l
  induction l with
  | nil =>
    intro p i h
    exact absurd h (by simp)
  | cons r rest ih =>
    intro p i h
    cases i with
    | zero => rfl
    | succ i =>
      have hi : i < rest.length := by
        simpa using Nat.lt_of_succ_lt_succ (by simpa using h)
      rw [show mrGo e x p (r :: rest)
            = mrStep e x p r :: mrGo e x (mrStep e x p r) rest from rfl,
        List.get?_cons_succ, ih (mrStep e x p r) i hi]
      cases i with
      | zero => rfl
      | succ k => rfl

/-- C7: the mean-reversion signal is the run of a 2-state machine started
FLAT: at every index the emitted value is obtained from the previous value
(0 at index 0) by switching FLAT→LONG exactly when the oscillator is defined
and below the entry threshold, LONG→FLAT exactly when it is defined and
above the exit threshold, and holding the state unchanged when the
oscillator is undefined (all three cases are the body of `mrStep`). -/
theorem C7_meanRevMachine (rows : List OHLCV) (period : ℕ) (entry exitThr : ℚ) (i : ℕ)
    (hi : i < rows.length) :
    (buildBacktestSignalMeanRev rows period entry exitThr).get? i =
      some (mrStep entry exitThr
        (if i = 0 then 0
         else (buildBacktestSignalMeanRev rows period entry exitThr).getD (i - 1) 0)
        (((rsi (rows.map OHLCV.close) period).get? i).join)) := by
  unfold buildBacktestSignalMeanRev
  apply mrGo_get
  rw [rsi_length, List.length_map]
  exact hi

theorem C7_meanRevMachine_witness :
    (buildBacktestSignalMeanRev rowsW7 1 50 70).get? 2 =
      some (mrStep 50 70
        (if 2 = 0 then 0 else (buildBacktestSignalMeanRev rowsW7 1 50 70).getD (2 - 1) 0)
        (((rsi (rowsW7.map OHLCV.close) 1).get? 2).join)) :=
  C7_meanRevMachine rowsW7 1 50 70 2 (by norm_num [rowsW7])

theorem C9_zeroExposureFrame_witness :
    btRealize argsW9 100 barW stateW =
      { stateW with
        curve := stateW.curve ++ [(barW.t, stateW.equity)]
        daily := stateW.daily ++ [0] } :=
  C9_zeroExposureFrame argsW9 100 barW stateW 95 rfl rfl
    (by norm_num [argsW9, argsA, barW]) (by norm_num [argsW9, argsA, clamp, jsMax, jsMin])
    rfl (by norm_num [barW])
